import Mathlib

/-!
# Verification of the StrmGenerator plugin core (plugins.v2/strmgenerator)

Shallow embedding of the core algorithms of `plugins.v2/strmgenerator/__init__.py`:

* `parse_tree_structure`  — tree-text parsing (source lines 811-843);
* `formatContent`         — `__format_content` (lines 529-545);
* `createStrmFile`        — `__create_strm_file` (lines 547-625);
* `handleFile`            — `__handle_file`, the incremental single-path pass
  (lines 482-519), together with `__save_json` (lines 521-527);
* `scan`                  — the full-scan pass (lines 331-464).

Modeling conventions:

* Strings are Lean `String`s; the Python string primitives used by the source
  (`in`, `replace`, `strip`, `lower`, `splitlines`, `posixpath.join`,
  `pathlib` `parent`/`name`/`suffix`, `os.path.splitext`, `urllib.parse.quote`)
  are re-implemented below by structural recursion on the character list, so
  that every definition evaluates by kernel reduction.  `lower` and `strip`
  are modeled on their ASCII behaviour (all extensions and markers in the
  source are ASCII); `splitlines` splits on LF, CRLF and CR.
* `pathlib` path normalization is modeled for the path shapes the plugin
  feeds it (POSIX-style paths; components `""` and `"."` are dropped).
* The local filesystem is an association list from (strm) file path to file
  content; directory creation has no observable effect in this model.
* Python `set`s are modeled as duplicate-free lists whose order refines the
  (unspecified) Python set iteration order; the set-algebra facts proved about
  them are stated via `List.toFinset`.
* I/O failures (the exceptions caught by the per-file `try` blocks and inside
  `__create_strm_file`) are modeled by a per-file `IOOutcome` oracle.  An
  exception may be raised before the pointer file is opened (no filesystem
  effect) or after `open(strm_file, 'w')` already created/truncated it — in
  the latter case the file stays on disk holding the prefix of the content
  that reached it.  A `None` strm content (failed `__format_content`) raises
  deterministically: at the replacement loop when rules are configured
  (before the open), otherwise at `f.write(None)` (after the open created
  the empty file).
* Python `str.replace` with an empty pattern (never exercised by the plugin:
  both placeholders and the path-replacement sources are non-empty) is not
  modeled bit-for-bit; `pyReplace` leaves the string unchanged once no
  occurrence is found.
-/

namespace StrmVerify

/-! ## Python string primitives -/

/-- Leftmost occurrence split: `findSplit pat l = some (pre, post)` when
`l = pre ++ pat ++ post` with `pre` shortest. -/
def findSplit (pat : List Char) : List Char → Option (List Char × List Char)
  | [] => none
  | c :: rest =>
    if pat.isPrefixOf (c :: rest) then some ([], (c :: rest).drop pat.length)
    else
      match findSplit pat rest with
      | some (pre, post) => some (c :: pre, post)
      | none => none

/-- Fuel-driven left-to-right non-overlapping replacement (Python
`str.replace` for a non-empty pattern); the fuel is the string length, which
bounds the number of occurrences. -/
def replaceFuel (pat rep : List Char) : Nat → List Char → List Char
  | 0, l => l
  | fuel + 1, l =>
    match findSplit pat l with
    | none => l
    | some (pre, post) => pre ++ rep ++ replaceFuel pat rep fuel post

/-- Python `s.replace(pat, rep)` for non-empty `pat`. -/
def pyReplace (s pat rep : String) : String :=
  ⟨replaceFuel pat.data rep.data s.data.length s.data⟩

/-- Substring test on character lists (Python `pat in s`). -/
def hasSub (pat : List Char) : List Char → Bool
  | [] => pat.isEmpty
  | c :: rest => pat.isPrefixOf (c :: rest) || hasSub pat rest

/-- Python `pat in s`. -/
def strIn (pat s : String) : Bool := hasSub pat.data s.data

/-- Characters stripped by Python `str.strip()` (ASCII whitespace). -/
def isPySpace (c : Char) : Bool :=
  c == ' ' || c == '\t' || c == '\n' || c == '\r' || c == '\x0b' || c == '\x0c'

/-- Python `str.strip()` on a character list. -/
def pyStripChars (l : List Char) : List Char :=
  ((l.dropWhile isPySpace).reverse.dropWhile isPySpace).reverse

/-- Python `str.lower()` (ASCII). -/
def pyCharLower (c : Char) : Char :=
  if 'A' ≤ c && c ≤ 'Z' then Char.ofNat (c.toNat + 32) else c

/-- Python `str.lower()` (ASCII). -/
def pyLower (s : String) : String := ⟨s.data.map pyCharLower⟩

/-- One step of Python `str.splitlines` (LF / CRLF / CR), accumulator holds
the current line reversed. -/
def splitLinesGo : List Char → List Char → List (List Char)
  | [], acc => [acc.reverse]
  | '\r' :: '\n' :: rest, acc =>
    match rest with
    | [] => [acc.reverse]
    | _ => acc.reverse :: splitLinesGo rest []
  | '\n' :: rest, acc =>
    match rest with
    | [] => [acc.reverse]
    | _ => acc.reverse :: splitLinesGo rest []
  | '\r' :: rest, acc =>
    match rest with
    | [] => [acc.reverse]
    | _ => acc.reverse :: splitLinesGo rest []
  | c :: rest, acc => splitLinesGo rest (c :: acc)

/-- Python `str.splitlines()` restricted to LF / CRLF / CR line breaks. -/
def pySplitlines (l : List Char) : List (List Char) :=
  match l with
  | [] => []
  | _ => splitLinesGo l []

/-! ## posixpath / pathlib primitives -/

/-- `posixpath.join` of two components. -/
def posixJoin2 (a b : String) : String :=
  if b.data.head? = some '/' then b
  else if a = "" ∨ a.data.getLast? = some '/' then a ++ b
  else a ++ "/" ++ b

/-- `posixpath.join(*components)` (at least one component). -/
def posixJoinList : List String → String
  | [] => ""
  | h :: t => t.foldl posixJoin2 h

/-- Split a character list on `'/'`, keeping empty runs. -/
def splitOnSlash : List Char → List (List Char)
  | [] => [[]]
  | '/' :: rest => [] :: splitOnSlash rest
  | c :: rest =>
    match splitOnSlash rest with
    | [] => [[c]]
    | h :: t => (c :: h) :: t

/-- `pathlib.PurePosixPath` components: empty and `"."` segments dropped. -/
def posixComponents (p : String) : List String :=
  ((splitOnSlash p.data).map (fun l => (⟨l⟩ : String))).filter
    (fun s => s ≠ "" && s ≠ ".")

/-- Whether the path is absolute under the POSIX flavour. -/
def posixIsAbs (p : String) : Bool := p.data.head? = some '/'

/-- Join components with a separator. -/
def joinWith (sep : String) : List String → String
  | [] => ""
  | [x] => x
  | x :: xs => x ++ sep ++ joinWith sep xs

/-- Render a (root?, components) pair the way `str(PurePosixPath(...))` does. -/
def posixRender (abs : Bool) (comps : List String) : String :=
  if abs then "/" ++ joinWith "/" comps
  else if comps = [] then "." else joinWith "/" comps

/-- `str(PurePosixPath(p))`: the normalized form of `p`. -/
def pyNormalize (p : String) : String := posixRender (posixIsAbs p) (posixComponents p)

/-- `str(PurePosixPath(p).parent)`. -/
def pyParent (p : String) : String :=
  posixRender (posixIsAbs p) (posixComponents p).dropLast

/-- `PurePosixPath(p).name`. -/
def pyName (p : String) : String := ((posixComponents p).getLast?).getD ""

/-- Index of the last occurrence of `c` (Python `str.rfind`). -/
def lastIdxOf (c : Char) (l : List Char) : Option Nat :=
  match l with
  | [] => none
  | x :: rest =>
    match lastIdxOf c rest with
    | some i => some (i + 1)
    | none => if x = c then some 0 else none

/-- `PurePosixPath(p).suffix`: the extension of the final component, empty
for dotless, dot-leading and dot-trailing names. -/
def pySuffix (p : String) : String :=
  let name := (pyName p).data
  match lastIdxOf '.' name with
  | none => ""
  | some i => if 0 < i ∧ i < name.length - 1 then ⟨name.drop i⟩ else ""

/-- `os.path.splitext(name)[0]` for a name with no slash: cut at the last dot
unless every character before it is a dot. -/
def pySplitextRoot (name : String) : String :=
  match lastIdxOf '.' name.data with
  | none => name
  | some i => if (name.data.take i).any (fun c => c ≠ '.') then ⟨name.data.take i⟩ else name

/-! ## urllib.parse.quote -/

/-- UTF-8 encoding of one scalar value, as byte values. -/
def utf8EncodeChar (c : Char) : List Nat :=
  let v := c.toNat
  if v < 128 then [v]
  else if v < 2048 then [192 + v / 64, 128 + v % 64]
  else if v < 65536 then [224 + v / 4096, 128 + v / 64 % 64, 128 + v % 64]
  else [240 + v / 262144, 128 + v / 4096 % 64, 128 + v / 64 % 64, 128 + v % 64]

/-- UTF-8 bytes of a string (Python `s.encode('utf-8')`). -/
def utf8Bytes (s : String) : List Nat := (s.data.map utf8EncodeChar).flatten

/-- The bytes `urllib.parse.quote` never encodes: ASCII letters, digits and
`'_'`, `'.'`, `'-'`, `'~'`. -/
def alwaysSafeByte (b : Nat) : Bool :=
  (48 ≤ b && b ≤ 57) || (65 ≤ b && b ≤ 90) || (97 ≤ b && b ≤ 122) ||
    b == 45 || b == 46 || b == 95 || b == 126

/-- Upper-case hex digit for `n < 16`. -/
def hexDigit (n : Nat) : Char :=
  if n < 10 then Char.ofNat (48 + n) else Char.ofNat (55 + n)

/-- Rendering of one byte by `urllib.parse.quote(-, safe='')`: a safe byte
stays literal, every other byte becomes an upper-case percent triple. -/
def quoteByteChars (b : Nat) : List Char :=
  if alwaysSafeByte b then [Char.ofNat b]
  else ['%', hexDigit (b / 16), hexDigit (b % 16)]

/-- `urllib.parse.quote(s, safe='')`. -/
def pyQuote (s : String) : String := ⟨((utf8Bytes s).map quoteByteChars).flatten⟩

/-! ## Tree-text parsing (`parse_tree_structure`) -/

/-- Number of leading `"| "` groups of the line. -/
def countPipeGroups : List Char → Nat
  | '|' :: ' ' :: rest => countPipeGroups rest + 1
  | _ => 0

/-- Match of the line prefix against `^(?:\x7c )+\x7c-`: `some k` gives the
number of `"| "` groups (so the matched marker has length `2*k + 2` and the
line's depth is `k`); at least one group is required. -/
def treeLineDepth (l : List Char) : Option Nat :=
  let k := countPipeGroups l
  if k = 0 then none
  else
    match l.drop (2 * k) with
    | '|' :: '-' :: _ => some k
    | _ => none

/-- `line.strip()[len(marker):].strip()` — the item name of a matched line. -/
def treeItemName (l : List Char) (k : Nat) : String :=
  ⟨pyStripChars ((pyStripChars l).drop (2 * k + 2))⟩

/-- The seed of the parser's path stack: `[str(Path(dir_path).parent)]` unless
the parent is the filesystem root (the source's root/drive test), in which
case `["/"]`. -/
def parseSeed (dirPath : String) : List String :=
  let par := pyParent dirPath
  if par ≠ "/" ∨ (par = pyNormalize dirPath ∧
      (posixIsAbs dirPath ∨ (pyName dirPath).data.contains ':')) then [par]
  else ["/"]

/-- The per-line loop of `parse_tree_structure`: maintain the depth-indexed
stack, emit the joined path of each matched line. -/
def parseTreeGo (stack : List String) : List (List Char) → List String
  | [] => []
  | line :: rest =>
    match treeLineDepth line with
    | none => parseTreeGo stack rest
    | some k =>
      let item := treeItemName line k
      let stack' := if k < stack.length then stack.set k item else stack ++ [item]
      pyReplace (posixJoinList (stack'.take (k + 1))) "\\" "/" :: parseTreeGo stack' rest

/-- `parse_tree_structure(content, dir_path)` (source lines 811-843), with the
generator materialized as the list of yielded paths. -/
def parse_tree_structure (content : String) (dir_path : String) : List String :=
  parseTreeGo (parseSeed dir_path) (pySplitlines content.data)

/-! ## Content formatting (`__format_content`) -/

/-- `__format_content(format_str, local_file, cloud_file, uriencode)` (source
lines 529-545): `none` models the `None` return. -/
def formatContent (format_str local_file cloud_file : String) (uriencode : Bool) : Option String :=
  if strIn "{local_file}" format_str then
    some (pyReplace format_str "{local_file}" local_file)
  else if strIn "{cloud_file}" format_str then
    some (pyReplace format_str "{cloud_file}"
      (if uriencode then pyQuote cloud_file else pyReplace cloud_file "\\" "/"))
  else none

/-! ## Python-set-as-list operations

`_cloud_files` and the intermediate sets of `scan` are Python `set`s; they are
modeled as duplicate-free lists, with a fixed iteration order refining the
unspecified Python one. -/

/-- `s.add(x)` on a set-as-list. -/
def pySetAdd (l : List String) (x : String) : List String :=
  if x ∈ l then l else l ++ [x]

/-- `s.update(extra)` on a set-as-list. -/
def pySetUnionUpdate (l extra : List String) : List String :=
  extra.foldl pySetAdd l

/-- `a - b` on sets-as-lists. -/
def pySetDiff (a b : List String) : List String :=
  a.filter (fun x => decide (x ∉ b))

/-- `a & b` on sets-as-lists. -/
def pySetInter (a b : List String) : List String :=
  a.filter (fun x => decide (x ∈ b))

/-! ## The mutable plugin state -/

/-- The local filesystem restricted to the pointer files: an association list
path ↦ content, newest binding first. -/
def FS := List (String × String)

instance : DecidableEq FS := inferInstanceAs (DecidableEq (List (String × String)))

/-- Content of the file at `k`, `none` when absent. -/
def fsGet : FS → String → Option String
  | [], _ => none
  | (k, v) :: t, key => if k = key then some v else fsGet t key

/-- Write `v` to the file at `k` (creating or overwriting it). -/
def fsSet (fs : FS) (k v : String) : FS := (k, v) :: fs

/-- One configured mount: a key of the source's configuration dictionaries
(`_cloud_dir_conf` / `_strm_dir_conf` / `_format_conf`, all keyed by the
local mount root) together with the corresponding values. -/
structure MountConf where
  localDir : String
  cloudDir : String
  strmDir : String
  formatStr : String
deriving DecidableEq

/-- The scalar plugin options used by the two passes. -/
structure PluginConf where
  rmtMediaext : List String
  otherMediaext : List String
  copyFiles : Bool
  copySubtitles : Bool
  cover : Bool
  uriencode : Bool
  pathReplacements : List (String × String)
deriving DecidableEq

/-- The subtitle suffixes hard-coded in both passes. -/
def subtitleExts : List String := [".srt", ".ass", ".ssa", ".sub"]

/-- The mutable state shared by the two passes: `_cloud_files` (the
PathIndex), the persisted `cloud_files.json` (`none` when absent), the local
pointer files, and a counter of `__save_json` executions. -/
structure SyncState where
  index : List String
  disk : Option (List String)
  fs : FS
  saveCount : Nat
deriving DecidableEq

/-- `__save_json` (source lines 521-527): persist the index. -/
def saveJson (st : SyncState) : SyncState :=
  { st with disk := some st.index, saveCount := st.saveCount + 1 }

/-! ## Materializer (`__create_strm_file`) -/

/-- Where the environment makes the I/O of one `__create_strm_file` (or
copy) attempt raise, if anywhere: `success` — no exception anywhere;
`raiseBeforeOpen` — an exception (`makedirs`, the `open` itself) before the
pointer file is created, leaving the filesystem untouched;
`raiseAfterOpen n` — `open(strm_file, 'w')` succeeded, creating/truncating
the file, and a later exception (mid-write I/O error, or a failing
post-write notification step) left it holding the first `n` characters of
the content. -/
inductive IOOutcome where
  | success : IOOutcome
  | raiseBeforeOpen : IOOutcome
  | raiseAfterOpen : Nat → IOOutcome
deriving DecidableEq

/-- `Path(strm_file).parent` joined with the name's stem plus the fixed
`.strm` extension (source line 561). -/
def canonicalStrm (strm_file : String) : String :=
  posixJoin2 (pyParent strm_file) (pySplitextRoot (pyName strm_file) ++ ".strm")

/-- The source's path-replacement loop (lines 566-570): each configured rule
is applied in order, replacing every occurrence. -/
def applyReplacements (repl : List (String × String)) (content : String) : String :=
  repl.foldl (fun c r => if strIn r.1 c then pyReplace c r.1 r.2 else c) content

/-- `__create_strm_file(strm_file, strm_content)` (source lines 547-625).
Returns (success flag, filesystem, whether the content was written in
full).  The skip-on-exists check (lines 563-565) precedes any fallible
I/O.  `content = none` models a `None` strm content (a failed
`__format_content`): with replacement rules configured, `source in None`
raises before the open; otherwise the open creates the empty file and
`f.write(None)` raises.  Every exception is caught by the function's own
handler, which returns `False` — but a file created by a successful `open`
stays on disk. -/
def createStrmFile (cover : Bool) (repl : List (String × String)) (io : IOOutcome)
    (strm_file : String) (content : Option String) (fs : FS) : Bool × FS × Bool :=
  let canon := canonicalStrm strm_file
  if (fsGet fs canon).isSome && !cover then (true, fs, false)
  else
    match content with
    | none =>
      if repl ≠ [] then (false, fs, false)
      else
        match io with
        | IOOutcome.raiseBeforeOpen => (false, fs, false)
        | _ => (false, fsSet fs canon "", false)
    | some c =>
      match io with
      | IOOutcome.success =>
        (true, fsSet fs canon (applyReplacements repl c), true)
      | IOOutcome.raiseBeforeOpen => (false, fs, false)
      | IOOutcome.raiseAfterOpen n =>
        (false, fsSet fs canon ⟨(applyReplacements repl c).data.take n⟩, false)

/-! ## Incremental pass (`__handle_file`) -/

/-- `__handle_file(event_path, mon_path)` (source lines 482-519) for the mount
`m` whose `localDir` is the matched `mon_path`.  `srcExists` is
`Path(event_path).exists()`; `io` is the I/O oracle for this event.  Returns
the new state and the `success_flag`. -/
def handleFile (conf : PluginConf) (m : MountConf) (io : IOOutcome) (srcExists : Bool)
    (event_path : String) (st : SyncState) : SyncState × Bool :=
  if !srcExists then (st, false)
  else
    let cloud_file := pyReplace event_path m.localDir m.cloudDir
    let target_file := pyReplace event_path m.localDir m.strmDir
    let file_suffix := pyLower (pySuffix event_path)
    if conf.rmtMediaext.contains file_suffix then
      let content := formatContent m.formatStr event_path cloud_file conf.uriencode
      let r := createStrmFile conf.cover conf.pathReplacements io target_file content st.fs
      let st' :=
        { st with
          fs := (r.2).1
          index := if r.1 then pySetAdd st.index cloud_file else st.index }
      if r.1 then (saveJson st', true) else (st', false)
    else if conf.copyFiles && conf.otherMediaext.contains file_suffix then
      if io = IOOutcome.success then (saveJson st, true) else (st, false)
    else if conf.copySubtitles && subtitleExts.contains file_suffix then
      if io = IOOutcome.success then (saveJson st, true) else (st, false)
    else (st, false)

/-! ## Full scan (`scan`) -/

/-- Whether `retrieve_directory_structure` returned truthy tree text for the
mount (source line 363: `if not tree_content: continue`). -/
def treeOkAt (trees : String → Option String) (m : MountConf) : Bool :=
  match trees m.cloudDir with
  | none => false
  | some t => t ≠ ""

/-- `current_files` of one mount (source lines 367-371): the parsed tree
paths with a non-empty suffix; empty when the fetch failed. -/
def mountFiles (trees : String → Option String) (m : MountConf) : List String :=
  match trees m.cloudDir with
  | none => []
  | some t =>
    if t = "" then []
    else (parse_tree_structure t m.cloudDir).filter (fun p => pySuffix p ≠ "")

/-- One step of the collection loop (source lines 360-373): accumulate
`all_cloud_files` and `dir_file_map`; a mount with a falsy tree contributes
nothing and gets no `dir_file_map` entry. -/
def collectStep (trees : String → Option String)
    (acc : List String × List (String × List String)) (m : MountConf) :
    List String × List (String × List String) :=
  if treeOkAt trees m then
    (pySetUnionUpdate acc.1 (mountFiles trees m), acc.2 ++ [(m.localDir, mountFiles trees m)])
  else acc

/-- `all_cloud_files` after the collection loop. -/
def collectAll (mounts : List MountConf) (trees : String → Option String) : List String :=
  (mounts.foldl (collectStep trees) ([], [])).1

/-- `dir_file_map` after the collection loop. -/
def collectMap (mounts : List MountConf) (trees : String → Option String) :
    List (String × List String) :=
  (mounts.foldl (collectStep trees) ([], [])).2

/-- `dir_file_map[local_dir]` lookup. -/
def lookupMap : List (String × List String) → String → Option (List String)
  | [], _ => none
  | (k, v) :: t, key => if k = key then some v else lookupMap t key

/-- The accumulator of the processing loop (source lines 389-440):
`processed_files`, `has_changes`, the filesystem, and the cloud files whose
strm file was physically written during this scan. -/
structure FoldSt where
  fs : FS
  processed : List String
  strmWritten : List String
  hasChanges : Bool
deriving DecidableEq

/-- The body of the inner loop of `scan` (source lines 402-440) for one new
cloud file of mount `m`: classify by suffix, write the strm file or copy the
file, record success; the surrounding `try` catches I/O exceptions, which
leave the accumulator's counters unchanged (though a failed strm attempt
may still have created the pointer file). -/
def processOneFile (conf : PluginConf) (io : String → IOOutcome) (m : MountConf)
    (a : FoldSt) (cloud_file : String) : FoldSt :=
  let local_file := pyReplace cloud_file m.cloudDir m.localDir
  let target_file := pyReplace cloud_file m.cloudDir m.strmDir
  let file_suffix := pyLower (pySuffix local_file)
  if conf.rmtMediaext.contains file_suffix then
    let content := formatContent m.formatStr local_file cloud_file conf.uriencode
    let r := createStrmFile conf.cover conf.pathReplacements (io cloud_file) target_file content a.fs
    { fs := (r.2).1
      processed := if r.1 then pySetAdd a.processed cloud_file else a.processed
      strmWritten := if (r.2).2 then a.strmWritten ++ [cloud_file] else a.strmWritten
      hasChanges := a.hasChanges || r.1 }
  else if conf.copyFiles && conf.otherMediaext.contains file_suffix then
    if io cloud_file = IOOutcome.success then
      { a with processed := pySetAdd a.processed cloud_file, hasChanges := true }
    else a
  else if conf.copySubtitles && subtitleExts.contains file_suffix then
    if io cloud_file = IOOutcome.success then
      { a with processed := pySetAdd a.processed cloud_file, hasChanges := true }
    else a
  else a

/-- The body of the outer processing loop (source lines 394-440) for one
mount: `dir_file_map[local_dir]` raises `KeyError` (modeled as `none`,
aborting the scan) when the mount's fetch failed; otherwise the new files of
this mount are processed in order. -/
def processMount (conf : PluginConf) (io : String → IOOutcome) (newFiles : List String)
    (dirMap : List (String × List String)) (a : FoldSt) (m : MountConf) : Option FoldSt :=
  match lookupMap dirMap m.localDir with
  | none => none
  | some files => some ((pySetInter newFiles files).foldl (processOneFile conf io m) a)

/-- The outer processing loop over all configured mounts (source lines
394-440), aborting with `none` on the first `KeyError`. -/
def processAll (conf : PluginConf) (io : String → IOOutcome) (newFiles : List String)
    (dirMap : List (String × List String)) : List MountConf → FoldSt → Option FoldSt
  | [], a => some a
  | m :: ms, a =>
    match processMount conf io newFiles dirMap a m with
    | none => none
    | some a' => processAll conf io newFiles dirMap ms a'

/-- The observable outcome of a completed `scan`. -/
structure ScanOutcome where
  noChanges : Bool
  newFiles : List String
  processed : List String
  strmWritten : List String
  st : SyncState
deriving DecidableEq

/-- `scan` (source lines 331-464): collect all cloud files, diff against the
index, return early reporting "no changes" on an empty diff, otherwise
process the new files per mount and, when anything succeeded, replace the
index by the full snapshot and persist it.  `none` models the uncaught
`KeyError` raised when a mount whose fetch failed still has new files to
partition. -/
def scan (mounts : List MountConf) (conf : PluginConf)
    (trees : String → Option String) (io : String → IOOutcome) (st : SyncState) :
    Option ScanOutcome :=
  let allCloud := collectAll mounts trees
  let dirMap := collectMap mounts trees
  let newFiles := pySetDiff allCloud st.index
  if newFiles = [] then
    some { noChanges := true, newFiles := newFiles, processed := [],
           strmWritten := [], st := st }
  else
    match processAll conf io newFiles dirMap mounts
        { fs := st.fs, processed := [], strmWritten := [], hasChanges := false } with
    | none => none
    | some a =>
      let st' := { st with fs := a.fs }
      let st'' := if a.hasChanges then saveJson { st' with index := allCloud } else st'
      some { noChanges := false, newFiles := newFiles, processed := a.processed,
             strmWritten := a.strmWritten, st := st'' }

/-! ## Statement-side and invariant definitions -/

/-- The spec-side "union over all mounts of the parsed tree paths having a
non-empty suffix". -/
def unionParsedFinset (mounts : List MountConf) (trees : String → Option String) :
    Finset String :=
  mounts.foldl (fun s m => s ∪ (mountFiles trees m).toFinset) ∅

/-- `has_changes` is set exactly when `processed_files` has gained a member. -/
def flagInv (a : FoldSt) : Prop := a.hasChanges = true ↔ a.processed ≠ []

/-- Modelled from the spec: the encoding in which "every character of
`cloudFile` is percent-encoded (no characters treated as safe)" — every
UTF-8 byte becomes a percent triple, with no safe set at all.  Stated from
the spec's words, to be compared with the code's `pyQuote`. -/
def specEncodeAllChars (s : String) : String :=
  ⟨((utf8Bytes s).map (fun b => ['%', hexDigit (b / 16), hexDigit (b % 16)])).flatten⟩

/-! ## Concrete fixtures for witnesses and counterexamples -/

set_option maxRecDepth 8000

/-- A configured mount binding `/local` ↦ cloud `/cloud`, strm dir `/strm`. -/
def wMount : MountConf := ⟨"/local", "/cloud", "/strm", "{cloud_file}"⟩

/-- Plugin options: only `.mkv` is a media extension, no copies, no
overwrite, no encoding, no replacement rules. -/
def wConf : PluginConf := ⟨[".mkv"], [], false, false, false, false, []⟩

/-- Tree fetch: the cloud dir exports its own name and two media files. -/
def wTrees : String → Option String := fun d =>
  if d = "/cloud" then some "| |-cloud\n| | |-X.mkv\n| | |-Y.mkv" else none

/-- I/O oracle under which only the attempt for `Y.mkv` raises, before its
pointer file is created. -/
def wOkX : String → IOOutcome := fun f =>
  if f = "/cloud/Y.mkv" then IOOutcome.raiseBeforeOpen else IOOutcome.success

/-- I/O oracle under which every operation succeeds. -/
def wOkAll : String → IOOutcome := fun _ => IOOutcome.success

/-- I/O oracle under which every attempt raises before any file is
created. -/
def wOkNone : String → IOOutcome := fun _ => IOOutcome.raiseBeforeOpen

/-- Fresh sync state: empty index, no persisted file, empty filesystem. -/
def wSt0 : SyncState := ⟨[], none, [], 0⟩

/-- Sync state whose index already holds a path absent from the snapshot. -/
def c8St0 : SyncState := ⟨["/old/P.mkv"], some ["/old/P.mkv"], [], 0⟩

/-- Outcome of the scan from `wSt0` under `wOkX`: `X.mkv` processed,
`Y.mkv` failed, and the index replaced by the full snapshot. -/
def c2Outcome : ScanOutcome :=
  ⟨false, ["/cloud/X.mkv", "/cloud/Y.mkv"], ["/cloud/X.mkv"], ["/cloud/X.mkv"],
   ⟨["/cloud/X.mkv", "/cloud/Y.mkv"], some ["/cloud/X.mkv", "/cloud/Y.mkv"],
    [("/strm/X.strm", "/cloud/X.mkv")], 1⟩⟩

/-- Outcome of the scan from `c8St0` under `wOkAll`: both files processed,
the indexed path `/old/P.mkv` dropped. -/
def c8Outcome : ScanOutcome :=
  ⟨false, ["/cloud/X.mkv", "/cloud/Y.mkv"], ["/cloud/X.mkv", "/cloud/Y.mkv"],
   ["/cloud/X.mkv", "/cloud/Y.mkv"],
   ⟨["/cloud/X.mkv", "/cloud/Y.mkv"], some ["/cloud/X.mkv", "/cloud/Y.mkv"],
    [("/strm/Y.strm", "/cloud/Y.mkv"), ("/strm/X.strm", "/cloud/X.mkv")], 1⟩⟩

/-- Sync state whose index already holds the whole snapshot of `wTrees`. -/
def wStFull : SyncState :=
  ⟨["/cloud/X.mkv", "/cloud/Y.mkv"], some ["/cloud/X.mkv", "/cloud/Y.mkv"], [], 0⟩

/-- A mount whose content template contains no recognized placeholder, so
`__format_content` returns `None` for every file. -/
def c7Mount : MountConf := ⟨"/local", "/cloud", "/strm", "plain text"⟩

/-- Tree fetch for the `c7Mount` scenario: one media file. -/
def c7Trees : String → Option String := fun d =>
  if d = "/cloud" then some "| |-cloud\n| | |-X.mkv" else none

/-- Outcome of the first scan under `c7Mount`: the `None` content raises at
`f.write` after `open` created the empty pointer file — nothing processed,
index untouched, but `/strm/X.strm` now exists. -/
def c7Out1 : ScanOutcome :=
  ⟨false, ["/cloud/X.mkv"], [], [], ⟨[], none, [("/strm/X.strm", "")], 0⟩⟩

/-- Outcome of the second scan under `c7Mount`: the skip-on-exists check
turns `X.mkv` into a success and the index is rewritten to the snapshot. -/
def c7Out2 : ScanOutcome :=
  ⟨false, ["/cloud/X.mkv"], ["/cloud/X.mkv"], [],
   ⟨["/cloud/X.mkv"], some ["/cloud/X.mkv"], [("/strm/X.strm", "")], 1⟩⟩

/-! ## Set-as-list lemmas -/

theorem mem_pySetAdd {l : List String} {x y : String} :
    y ∈ pySetAdd l x ↔ y ∈ l ∨ y = x := by
  unfold pySetAdd
  split
  · rename_i hx
    constructor
    · exact fun h => Or.inl h
    · rintro (h | rfl)
      · exact h
      · exact hx
  · simp [or_comm]

theorem pySetAdd_toFinset (l : List String) (x : String) :
    (pySetAdd l x).toFinset = insert x l.toFinset := by
  ext y
  simp [mem_pySetAdd, or_comm]

theorem pySetAdd_ne_nil (l : List String) (x : String) : pySetAdd l x ≠ [] := by
  unfold pySetAdd
  split
  · rename_i h
    exact fun hnil => by simp [hnil] at h
  · simp

theorem pySetUnionUpdate_toFinset (b a : List String) :
    (pySetUnionUpdate a b).toFinset = a.toFinset ∪ b.toFinset := by
  induction b generalizing a with
  | nil => simp [pySetUnionUpdate]
  | cons x xs ih =>
    show (pySetUnionUpdate (pySetAdd a x) xs).toFinset = _
    rw [ih, pySetAdd_toFinset]
    ext y
    simp
    try tauto

theorem pySetDiff_toFinset (a b : List String) :
    (pySetDiff a b).toFinset = a.toFinset \ b.toFinset := by
  ext y
  simp [pySetDiff, List.mem_filter]

theorem pySetDiff_eq_nil (a b : List String) (h : ∀ x ∈ a, x ∈ b) :
    pySetDiff a b = [] := by
  unfold pySetDiff
  rw [List.filter_eq_nil_iff]
  intro x hx
  simp [h x hx]

theorem mem_of_mem_pySetDiff {a b : List String} {x : String}
    (h : x ∈ pySetDiff a b) : x ∈ a := by
  unfold pySetDiff at h
  exact (List.mem_filter.mp h).1

theorem mem_of_mem_pySetInter {a b : List String} {x : String}
    (h : x ∈ pySetInter a b) : x ∈ a := by
  unfold pySetInter at h
  exact (List.mem_filter.mp h).1

/-! ## Filesystem lemmas -/

theorem fsGet_fsSet_self (fs : FS) (k v : String) :
    fsGet (fsSet fs k v) k = some v := by
  simp [fsGet, fsSet]

/-! ## Collection-phase lemmas -/

theorem mountFiles_eq_nil_of_not_treeOk {trees : String → Option String}
    {m : MountConf} (h : treeOkAt trees m = false) : mountFiles trees m = [] := by
  unfold treeOkAt at h
  unfold mountFiles
  cases htr : trees m.cloudDir with
  | none => rfl
  | some t =>
    rw [htr] at h
    simp at h
    simp [h]

theorem collect_fst_eq (trees : String → Option String) (mounts : List MountConf)
    (p : List String × List (String × List String)) :
    (mounts.foldl (collectStep trees) p).1 =
      mounts.foldl (fun l m => pySetUnionUpdate l (mountFiles trees m)) p.1 := by
  induction mounts generalizing p with
  | nil => rfl
  | cons m ms ih =>
    show ((ms.foldl (collectStep trees) (collectStep trees p m))).1 = _
    rw [ih]
    unfold collectStep
    by_cases h : treeOkAt trees m = true
    · simp [h]
    · have h' : treeOkAt trees m = false := by
        cases hb : treeOkAt trees m
        · rfl
        · exact absurd hb h
      simp [h', mountFiles_eq_nil_of_not_treeOk h']
      rfl

theorem foldl_pySetUnionUpdate_toFinset (trees : String → Option String)
    (mounts : List MountConf) (l : List String) :
    (mounts.foldl (fun l m => pySetUnionUpdate l (mountFiles trees m)) l).toFinset =
      mounts.foldl (fun s m => s ∪ (mountFiles trees m).toFinset) l.toFinset := by
  induction mounts generalizing l with
  | nil => rfl
  | cons m ms ih =>
    show (ms.foldl _ (pySetUnionUpdate l (mountFiles trees m))).toFinset = _
    rw [ih, pySetUnionUpdate_toFinset]
    rfl

theorem collectAll_toFinset (mounts : List MountConf) (trees : String → Option String) :
    (collectAll mounts trees).toFinset = unionParsedFinset mounts trees := by
  unfold collectAll unionParsedFinset
  rw [collect_fst_eq, foldl_pySetUnionUpdate_toFinset]
  rfl

/-! ## Processing-loop invariants -/

/-- The possible results of `__create_strm_file`: skip-on-exists success,
caught failure with no filesystem effect, caught failure that nevertheless
left the (empty or partially written) file on disk, or a complete write. -/
theorem createStrmFile_cases (cover : Bool) (repl : List (String × String)) (io : IOOutcome)
    (tf : String) (content : Option String) (fs : FS) :
    createStrmFile cover repl io tf content fs = (true, fs, false) ∨
    createStrmFile cover repl io tf content fs = (false, fs, false) ∨
    (∃ w, createStrmFile cover repl io tf content fs =
      (false, fsSet fs (canonicalStrm tf) w, false)) ∨
    (∃ c, content = some c ∧ io = IOOutcome.success ∧
      createStrmFile cover repl io tf content fs =
        (true, fsSet fs (canonicalStrm tf) (applyReplacements repl c), true)) := by
  simp only [createStrmFile]
  cases hc : ((fsGet fs (canonicalStrm tf)).isSome && !cover)
  · cases content
    · by_cases hrep : repl = []
      · cases io <;> simp [hrep]
      · simp [hrep]
    · cases io <;> simp
  · cases content
    · by_cases hrep : repl = []
      · cases io <;> simp [hrep]
      · simp [hrep]
    · cases io <;> simp

/-- A full write is reported only on the success path. -/
theorem createStrmFile_wrote_success {cover : Bool} {repl : List (String × String)}
    {io : IOOutcome} {tf : String} {content : Option String} {fs : FS}
    (h : ((createStrmFile cover repl io tf content fs).2).2 = true) :
    (createStrmFile cover repl io tf content fs).1 = true := by
  rcases createStrmFile_cases cover repl io tf content fs with he | he | ⟨w, he⟩ | ⟨c, _, _, he⟩
  · rw [he] at h; simp at h
  · rw [he] at h; simp at h
  · rw [he] at h; simp at h
  · rw [he]

/-- The three possible results of one iteration of the per-file loop:
strm-file handling, a successful copy, or no change to the accumulator. -/
theorem processOneFile_cases (conf : PluginConf) (ok : String → IOOutcome) (m : MountConf)
    (a : FoldSt) (f : String) :
    (∃ succ nfs wrote,
      createStrmFile conf.cover conf.pathReplacements (ok f) (pyReplace f m.cloudDir m.strmDir)
        (formatContent m.formatStr (pyReplace f m.cloudDir m.localDir) f conf.uriencode) a.fs =
        (succ, nfs, wrote) ∧
      processOneFile conf ok m a f =
        { fs := nfs
          processed := if succ then pySetAdd a.processed f else a.processed
          strmWritten := if wrote then a.strmWritten ++ [f] else a.strmWritten
          hasChanges := a.hasChanges || succ }) ∨
    processOneFile conf ok m a f =
      { a with processed := pySetAdd a.processed f, hasChanges := true } ∨
    processOneFile conf ok m a f = a := by
  simp only [processOneFile]
  cases h1 : conf.rmtMediaext.contains (pyLower (pySuffix (pyReplace f m.cloudDir m.localDir)))
  · cases h2 : (conf.copyFiles && conf.otherMediaext.contains
        (pyLower (pySuffix (pyReplace f m.cloudDir m.localDir))))
    · cases h3 : (conf.copySubtitles && subtitleExts.contains
          (pyLower (pySuffix (pyReplace f m.cloudDir m.localDir))))
      · simp [h1, h2, h3]
      · cases hok : ok f <;> simp [h1, h2, h3, hok]
    · cases hok : ok f <;> simp [h1, h2, hok]
  · refine Or.inl ?_
    rcases hr : createStrmFile conf.cover conf.pathReplacements (ok f)
        (pyReplace f m.cloudDir m.strmDir)
        (formatContent m.formatStr (pyReplace f m.cloudDir m.localDir) f conf.uriencode) a.fs
      with ⟨succ, nfs, wrote⟩
    exact ⟨succ, nfs, wrote, rfl, by simp [h1]⟩

/-- A per-file step that set no success flag left the processed and
written-file counters alone (though it may have created a pointer file,
changing the filesystem). -/
theorem processOneFile_of_not_changes {conf : PluginConf} {ok : String → IOOutcome}
    {m : MountConf} {a : FoldSt} {f : String}
    (h : (processOneFile conf ok m a f).hasChanges = false) :
    (processOneFile conf ok m a f).processed = a.processed ∧
    (processOneFile conf ok m a f).strmWritten = a.strmWritten ∧
    a.hasChanges = false := by
  rcases processOneFile_cases conf ok m a f with ⟨succ, nfs, wrote, hr, he⟩ | he | he
  · rw [he] at h ⊢
    simp only at h
    rw [Bool.or_eq_false_iff] at h
    obtain ⟨hahc, hsucc⟩ := h
    subst hsucc
    have hwr : wrote = false := by
      cases hw : wrote
      · rfl
      · have hw2 : ((createStrmFile conf.cover conf.pathReplacements (ok f)
            (pyReplace f m.cloudDir m.strmDir)
            (formatContent m.formatStr (pyReplace f m.cloudDir m.localDir) f conf.uriencode)
            a.fs).2).2 = true := by rw [hr]; exact hw
        have hs := createStrmFile_wrote_success hw2
        rw [hr] at hs
        simp at hs
    subst hwr
    exact ⟨by simp, by simp, hahc⟩
  · rw [he] at h; simp at h
  · rw [he]
    exact ⟨rfl, rfl, he ▸ h⟩

theorem foldl_processOneFile_of_not_changes (conf : PluginConf) (ok : String → IOOutcome)
    (m : MountConf) (l : List String) (a : FoldSt)
    (h : (l.foldl (processOneFile conf ok m) a).hasChanges = false) :
    (l.foldl (processOneFile conf ok m) a).processed = a.processed ∧
    (l.foldl (processOneFile conf ok m) a).strmWritten = a.strmWritten ∧
    a.hasChanges = false := by
  induction l generalizing a with
  | nil => exact ⟨rfl, rfl, h⟩
  | cons x xs ih =>
    rw [List.foldl_cons] at h ⊢
    obtain ⟨hfp, hfs, hstep⟩ := ih (processOneFile conf ok m a x) h
    obtain ⟨hp1, hs1, hahc⟩ := processOneFile_of_not_changes hstep
    exact ⟨hfp.trans hp1, hfs.trans hs1, hahc⟩

/-- `has_changes`, once set, is never unset by a later file. -/
theorem processOneFile_flagTrue {conf : PluginConf} {ok : String → IOOutcome}
    {m : MountConf} {a : FoldSt} {f : String} (h : a.hasChanges = true) :
    (processOneFile conf ok m a f).hasChanges = true := by
  rcases processOneFile_cases conf ok m a f with ⟨succ, nfs, wrote, _, he⟩ | he | he <;> rw [he]
  · simp [h]
  · exact h

theorem foldl_processOneFile_flagTrue (conf : PluginConf) (ok : String → IOOutcome)
    (m : MountConf) (l : List String) (a : FoldSt) (h : a.hasChanges = true) :
    (l.foldl (processOneFile conf ok m) a).hasChanges = true := by
  induction l generalizing a with
  | nil => exact h
  | cons x xs ih =>
    rw [List.foldl_cons]
    exact ih _ (processOneFile_flagTrue h)

theorem processAll_flagTrue {conf : PluginConf} {ok : String → IOOutcome}
    {nf : List String} {dm : List (String × List String)} (ms : List MountConf)
    (a0 a : FoldSt) (h : processAll conf ok nf dm ms a0 = some a)
    (h0 : a0.hasChanges = true) : a.hasChanges = true := by
  induction ms generalizing a0 with
  | nil =>
    unfold processAll at h
    injection h with h
    exact h ▸ h0
  | cons m ms ih =>
    unfold processAll at h
    cases hm : processMount conf ok nf dm a0 m with
    | none => rw [hm] at h; exact absurd h (by simp)
    | some a1 =>
      rw [hm] at h
      refine ih a1 h ?_
      unfold processMount at hm
      cases hl : lookupMap dm m.localDir with
      | none => rw [hl] at hm; exact absurd hm (by simp)
      | some files =>
        rw [hl] at hm
        have hfold : (pySetInter nf files).foldl (processOneFile conf ok m) a0 = a1 := by
          injection hm
        exact hfold ▸ foldl_processOneFile_flagTrue conf ok m _ a0 h0

theorem processMount_of_not_changes {conf : PluginConf} {ok : String → IOOutcome}
    {nf : List String} {dm : List (String × List String)} {a a' : FoldSt} {m : MountConf}
    (h : processMount conf ok nf dm a m = some a') (hc : a'.hasChanges = false) :
    a'.processed = a.processed ∧ a'.strmWritten = a.strmWritten ∧
    a.hasChanges = false := by
  unfold processMount at h
  cases hl : lookupMap dm m.localDir with
  | none => rw [hl] at h; exact absurd h (by simp)
  | some files =>
    rw [hl] at h
    have hfold : (pySetInter nf files).foldl (processOneFile conf ok m) a = a' := by
      injection h
    rw [← hfold] at hc
    obtain ⟨hp, hs, hahc⟩ := foldl_processOneFile_of_not_changes conf ok m _ a hc
    exact ⟨by rw [← hfold]; exact hp, by rw [← hfold]; exact hs, hahc⟩

theorem processAll_of_not_changes {conf : PluginConf} {ok : String → IOOutcome}
    {nf : List String} {dm : List (String × List String)} (ms : List MountConf)
    (a0 a : FoldSt) (h : processAll conf ok nf dm ms a0 = some a)
    (hc : a.hasChanges = false) :
    a.processed = a0.processed ∧ a.strmWritten = a0.strmWritten := by
  induction ms generalizing a0 with
  | nil =>
    unfold processAll at h
    injection h with h
    rw [← h]
    exact ⟨rfl, rfl⟩
  | cons m ms ih =>
    unfold processAll at h
    cases hm : processMount conf ok nf dm a0 m with
    | none => rw [hm] at h; exact absurd h (by simp)
    | some a1 =>
      rw [hm] at h
      obtain ⟨hp1, hs1⟩ := ih a1 h
      have ha1c : a1.hasChanges = false := by
        cases hb : a1.hasChanges
        · rfl
        · have hmono := processAll_flagTrue ms a1 a h hb
          rw [hc] at hmono
          exact absurd hmono (by decide)
      obtain ⟨hp0, hs0, _⟩ := processMount_of_not_changes hm ha1c
      exact ⟨hp1.trans hp0, hs1.trans hs0⟩

theorem processOneFile_flagInv {conf : PluginConf} {ok : String → IOOutcome}
    {m : MountConf} {a : FoldSt} {f : String} (h : flagInv a) :
    flagInv (processOneFile conf ok m a f) := by
  unfold flagInv at h ⊢
  rcases processOneFile_cases conf ok m a f with ⟨succ, nfs, wrote, _, he⟩ | he | he
  · rw [he]
    cases succ
    · simpa using h
    · simp [pySetAdd_ne_nil]
  · rw [he]
    simp [pySetAdd_ne_nil]
  · rw [he]
    exact h

theorem foldl_processOneFile_flagInv (conf : PluginConf) (ok : String → IOOutcome)
    (m : MountConf) (l : List String) (a : FoldSt) (h : flagInv a) :
    flagInv (l.foldl (processOneFile conf ok m) a) := by
  induction l generalizing a with
  | nil => exact h
  | cons x xs ih =>
    rw [List.foldl_cons]
    exact ih _ (processOneFile_flagInv h)

theorem processAll_flagInv {conf : PluginConf} {ok : String → IOOutcome}
    {nf : List String} {dm : List (String × List String)} (ms : List MountConf)
    (a0 a : FoldSt) (h : processAll conf ok nf dm ms a0 = some a)
    (h0 : flagInv a0) : flagInv a := by
  induction ms generalizing a0 with
  | nil =>
    unfold processAll at h
    injection h with h
    exact h ▸ h0
  | cons m ms ih =>
    unfold processAll at h
    cases hm : processMount conf ok nf dm a0 m with
    | none => rw [hm] at h; exact absurd h (by simp)
    | some a1 =>
      rw [hm] at h
      refine ih a1 h ?_
      unfold processMount at hm
      cases hl : lookupMap dm m.localDir with
      | none => rw [hl] at hm; exact absurd hm (by simp)
      | some files =>
        rw [hl] at hm
        have : (pySetInter nf files).foldl (processOneFile conf ok m) a0 = a1 := by
          injection hm
        exact this ▸ foldl_processOneFile_flagInv conf ok m _ a0 h0

theorem processOneFile_processed_mem {conf : PluginConf} {ok : String → IOOutcome}
    {m : MountConf} {a : FoldSt} {f x : String}
    (hx : x ∈ (processOneFile conf ok m a f).processed) :
    x ∈ a.processed ∨ x = f := by
  rcases processOneFile_cases conf ok m a f with ⟨succ, nfs, wrote, _, he⟩ | he | he
  · rw [he] at hx
    simp only at hx
    cases succ
    · exact Or.inl (by simpa using hx)
    · exact mem_pySetAdd.mp (by simpa using hx)
  · rw [he] at hx
    exact mem_pySetAdd.mp hx
  · exact Or.inl (he ▸ hx)

theorem foldl_processOneFile_processed_mem (conf : PluginConf) (ok : String → IOOutcome)
    (m : MountConf) (l : List String) (a : FoldSt) {x : String}
    (hx : x ∈ (l.foldl (processOneFile conf ok m) a).processed) :
    x ∈ a.processed ∨ x ∈ l := by
  induction l generalizing a with
  | nil => exact Or.inl hx
  | cons y ys ih =>
    rw [List.foldl_cons] at hx
    rcases ih (processOneFile conf ok m a y) hx with h | h
    · rcases processOneFile_processed_mem h with h' | h'
      · exact Or.inl h'
      · exact Or.inr (by simp [h'])
    · exact Or.inr (by simp [h])

theorem processAll_processed_mem {conf : PluginConf} {ok : String → IOOutcome}
    {nf : List String} {dm : List (String × List String)} (ms : List MountConf)
    (a0 a : FoldSt) (h : processAll conf ok nf dm ms a0 = some a) {x : String}
    (hx : x ∈ a.processed) : x ∈ a0.processed ∨ x ∈ nf := by
  induction ms generalizing a0 with
  | nil =>
    unfold processAll at h
    injection h with h
    exact Or.inl (h ▸ hx)
  | cons m ms ih =>
    unfold processAll at h
    cases hm : processMount conf ok nf dm a0 m with
    | none => rw [hm] at h; exact absurd h (by simp)
    | some a1 =>
      rw [hm] at h
      rcases ih a1 h with h1 | h1
      · unfold processMount at hm
        cases hl : lookupMap dm m.localDir with
        | none => rw [hl] at hm; exact absurd hm (by simp)
        | some files =>
          rw [hl] at hm
          have hfold : (pySetInter nf files).foldl (processOneFile conf ok m) a0 = a1 := by
            injection hm
          rcases foldl_processOneFile_processed_mem conf ok m _ a0 (hfold ▸ h1) with h2 | h2
          · exact Or.inl h2
          · exact Or.inr (mem_of_mem_pySetInter h2)
      · exact Or.inr h1

/-! ## Main characterization of `scan` -/

/-- A full scan whose aggregate-minus-index difference is empty returns early
with the "no changes" report and an untouched state. -/
theorem scan_diff_nil {mounts : List MountConf} {conf : PluginConf}
    {trees : String → Option String} {ok : String → IOOutcome} {st : SyncState}
    (h : pySetDiff (collectAll mounts trees) st.index = []) :
    scan mounts conf trees ok st =
      some { noChanges := true, newFiles := [], processed := [], strmWritten := [], st := st } := by
  simp only [scan]
  rw [h]
  simp

/-- The behaviour of a completed `scan`: the new-files set is the aggregate
diff; a scan with no successfully processed file changes nothing; a scan with
a successfully processed file replaces the index by the aggregate snapshot
and persists it; processed files come from the new-files set. -/
theorem scan_main {mounts : List MountConf} {conf : PluginConf}
    {trees : String → Option String} {ok : String → IOOutcome} {st : SyncState}
    {out : ScanOutcome} (h : scan mounts conf trees ok st = some out) :
    out.newFiles = pySetDiff (collectAll mounts trees) st.index ∧
    (out.processed = [] → out.st.index = st.index ∧ out.st.disk = st.disk ∧
      out.st.saveCount = st.saveCount ∧ out.strmWritten = []) ∧
    (out.processed ≠ [] →
      out.st.index = collectAll mounts trees ∧
      out.st.disk = some (collectAll mounts trees) ∧
      out.st.saveCount = st.saveCount + 1) ∧
    (∀ x ∈ out.processed, x ∈ out.newFiles) ∧
    (out.newFiles = [] → out.noChanges = true ∧ out.processed = [] ∧
      out.strmWritten = [] ∧ out.st = st) := by
  simp only [scan] at h
  by_cases hnil : pySetDiff (collectAll mounts trees) st.index = []
  · rw [if_pos hnil] at h
    injection h with h
    subst h
    refine ⟨rfl, fun _ => ⟨rfl, rfl, rfl, rfl⟩, fun hne => absurd rfl hne, ?_, ?_⟩
    · intro x hx
      simp at hx
    · exact fun _ => ⟨rfl, rfl, rfl, rfl⟩
  · rw [if_neg hnil] at h
    cases hp : processAll conf ok (pySetDiff (collectAll mounts trees) st.index)
        (collectMap mounts trees) mounts
        { fs := st.fs, processed := [], strmWritten := [], hasChanges := false } with
    | none =>
      rw [hp] at h
      exact absurd h (by simp)
    | some a =>
      rw [hp] at h
      injection h with h
      subst h
      have hflag : flagInv a :=
        processAll_flagInv mounts _ a hp (by simp [flagInv])
      refine ⟨rfl, ?_, ?_, ?_, ?_⟩
      · intro hproc
        have hc : a.hasChanges = false := by
          cases hb : a.hasChanges
          · rfl
          · exact absurd hproc (hflag.mp hb)
        obtain ⟨_, hsw⟩ := processAll_of_not_changes mounts _ a hp hc
        rw [hc]
        exact ⟨rfl, rfl, rfl, hsw⟩
      · intro hproc
        have hc : a.hasChanges = true := hflag.mpr hproc
        rw [hc]
        exact ⟨rfl, rfl, rfl⟩
      · intro x hx
        rcases processAll_processed_mem mounts _ a hp hx with h1 | h1
        · simp at h1
        · exact h1
      · intro hnf
        exact absurd hnf hnil

/-! ## Percent-encoding lemmas -/

theorem char_toNat_lt (c : Char) : c.toNat < 1114112 := by
  rcases c.valid with h | h
  · exact Nat.lt_trans h (by norm_num)
  · exact h.2

theorem charOfNat_toNat {b : Nat} (h : b < 55296) : (Char.ofNat b).toNat = b := by
  have hv : b.isValidChar := Or.inl h
  rw [Char.ofNat, dif_pos hv]
  rfl

theorem utf8EncodeChar_lt (c : Char) : ∀ b ∈ utf8EncodeChar c, b < 256 := by
  intro b hb
  have hc := char_toNat_lt c
  unfold utf8EncodeChar at hb
  by_cases h1 : c.toNat < 128
  · rw [if_pos h1] at hb
    simp at hb
    omega
  · rw [if_neg h1] at hb
    by_cases h2 : c.toNat < 2048
    · rw [if_pos h2] at hb
      simp at hb
      rcases hb with hb | hb <;> omega
    · rw [if_neg h2] at hb
      by_cases h3 : c.toNat < 65536
      · rw [if_pos h3] at hb
        simp at hb
        rcases hb with hb | hb | hb <;> omega
      · rw [if_neg h3] at hb
        simp at hb
        rcases hb with hb | hb | hb | hb <;> omega

theorem alwaysSafeByte_lt {b : Nat} (h : alwaysSafeByte b = true) : b < 55296 := by
  unfold alwaysSafeByte at h
  simp only [Bool.or_eq_true, Bool.and_eq_true, decide_eq_true_eq, beq_iff_eq] at h
  omega

theorem hexDigit_safe (n : Nat) (h : n < 16) : alwaysSafeByte (hexDigit n).toNat = true := by
  have hd : ∀ m : Fin 16, alwaysSafeByte (hexDigit m.val).toNat = true := by decide
  exact hd ⟨n, h⟩

/-- Every character emitted by `urllib.parse.quote(-, safe='')` is a percent
sign or an always-safe character: no reserved character (in particular no
`'/'`, space or backslash) survives unencoded. -/
theorem quoteByteChars_shape {b : Nat} (hb : b < 256) :
    ∀ ch ∈ quoteByteChars b, ch = '%' ∨ alwaysSafeByte ch.toNat = true := by
  intro ch hch
  unfold quoteByteChars at hch
  by_cases hs : alwaysSafeByte b = true
  · rw [if_pos hs] at hch
    simp at hch
    subst hch
    right
    rw [charOfNat_toNat (alwaysSafeByte_lt hs)]
    exact hs
  · rw [if_neg hs] at hch
    simp at hch
    rcases hch with rfl | rfl | rfl
    · exact Or.inl rfl
    · exact Or.inr (hexDigit_safe _ (by omega))
    · exact Or.inr (hexDigit_safe _ (by omega))

theorem pyQuote_shape (s : String) :
    ∀ ch ∈ (pyQuote s).data, ch = '%' ∨ alwaysSafeByte ch.toNat = true := by
  intro ch hch
  have hch' : ch ∈ ((utf8Bytes s).map quoteByteChars).flatten := hch
  rw [List.mem_flatten] at hch'
  obtain ⟨l, hl, hchl⟩ := hch'
  rw [List.mem_map] at hl
  obtain ⟨b, hb, rfl⟩ := hl
  have hblt : b < 256 := by
    unfold utf8Bytes at hb
    rw [List.mem_flatten] at hb
    obtain ⟨bl, hbl, hbbl⟩ := hb
    rw [List.mem_map] at hbl
    obtain ⟨c, _, rfl⟩ := hbl
    exact utf8EncodeChar_lt c b hbbl
  exact quoteByteChars_shape hblt ch hchl

/-! ## Claim theorems -/

/-- The possible results of `__handle_file`: no success (at most the
filesystem extended), a successful strm write (index extended, immediate
save), or a successful copy (immediate save, index untouched). -/
theorem handleFile_cases (conf : PluginConf) (m : MountConf) (ok : IOOutcome)
    (se : Bool) (p : String) (st : SyncState) :
    (∃ nfs, handleFile conf m ok se p st = ({ st with fs := nfs }, false)) ∨
    (∃ nfs, handleFile conf m ok se p st =
      (saveJson { st with
        fs := nfs
        index := pySetAdd st.index (pyReplace p m.localDir m.cloudDir) }, true)) ∨
    handleFile conf m ok se p st = (saveJson st, true) := by
  simp only [handleFile]
  cases se
  · left
    exact ⟨st.fs, rfl⟩
  · cases h1 : conf.rmtMediaext.contains (pyLower (pySuffix p))
    · cases h2 : (conf.copyFiles && conf.otherMediaext.contains (pyLower (pySuffix p)))
      · cases h3 : (conf.copySubtitles && subtitleExts.contains (pyLower (pySuffix p)))
        · left
          exact ⟨st.fs, by simp [h1, h2, h3]⟩
        · by_cases hok : ok = IOOutcome.success
          · right; right
            simp [h1, h2, h3, hok]
          · left
            exact ⟨st.fs, by simp [h1, h2, h3, hok]⟩
      · by_cases hok : ok = IOOutcome.success
        · right; right
          simp [h1, h2, hok]
        · left
          exact ⟨st.fs, by simp [h1, h2, hok]⟩
    · rcases hr : createStrmFile conf.cover conf.pathReplacements ok
          (pyReplace p m.localDir m.strmDir)
          (formatContent m.formatStr p (pyReplace p m.localDir m.cloudDir) conf.uriencode)
          st.fs with ⟨succ, nfs, wrote⟩
      cases succ
      · left
        exact ⟨nfs, by simp [h1]⟩
      · right; left
        exact ⟨nfs, by simp [h1]⟩

/-- C3 (counterexample): on the spec's four tree lines under base `/root`,
`parse_tree_structure` does not yield the four paths the claim names. -/
theorem c3_tree_example_cx :
    parse_tree_structure "|-A\n| |-B\n| | |-C.mkv\n| |-D.mkv" "/root" ≠
      ["/root/A", "/root/A/B", "/root/A/B/C.mkv", "/root/A/D.mkv"] := by decide

/-- C3 (amended): the line `|-A` matches no tree line (the prefix pattern
requires at least one `"| "` group before `"|-"`, giving a minimum depth of
1) and is skipped; the stack is seeded with `/root`'s parent `"/"`, so the
remaining three lines yield `/B`, `/B/C.mkv`, `/D.mkv`, in that order — the
last line still exercising the replace-at-shallower-depth rule. -/
theorem c3_tree_example_amended :
    parse_tree_structure "|-A\n| |-B\n| | |-C.mkv\n| |-D.mkv" "/root" =
      ["/B", "/B/C.mkv", "/D.mkv"] ∧
    treeLineDepth "|-A".data = none ∧
    treeLineDepth "| |-B".data = some 1 := by decide

/-- C4 (counterexample): a template containing both placeholders does not
fail — the `{local_file}` branch wins and substitutes, leaving
`{cloud_file}` in place. -/
theorem c4_both_placeholders_cx :
    formatContent "{local_file}{cloud_file}" "L" "C" false = some "L{cloud_file}" := by decide

/-- C4 (amended): `__format_content` fails exactly when neither placeholder
occurs in the template; any template containing `{local_file}` — alone or
together with `{cloud_file}` — succeeds through the `{local_file}` branch,
and a template containing only `{cloud_file}` succeeds as well. -/
theorem c4_template_failure_amended (f l c : String) (e : Bool) :
    (formatContent f l c e = none ↔
      strIn "{local_file}" f = false ∧ strIn "{cloud_file}" f = false) ∧
    (strIn "{local_file}" f = true →
      formatContent f l c e = some (pyReplace f "{local_file}" l)) ∧
    (strIn "{local_file}" f = false → strIn "{cloud_file}" f = true →
      (formatContent f l c e).isSome = true) := by
  unfold formatContent
  cases h1 : strIn "{local_file}" f <;> cases h2 : strIn "{cloud_file}" f <;>
    simp [h1, h2]

/-- C4 (witness): the amended theorem applied at templates with one and with
no placeholder. -/
theorem c4_template_failure_amended_witness :
    formatContent "{local_file}" "L" "C" false = some "L" ∧
    formatContent "no placeholder" "L" "C" false = none := by
  have h1 := c4_template_failure_amended "{local_file}" "L" "C" false
  have h2 := c4_template_failure_amended "no placeholder" "L" "C" false
  exact ⟨((h1.2).1 (by decide)).trans (by decide), (h2.1).mpr (by decide)⟩

/-- C5 (counterexample): with `uriEncode` the code yields
`%2Fa%20b%2Fc.mkv`, in which the unreserved characters `a`, `b`, `c`, `.`,
`m`, `k`, `v` stay literal — not the claim's every-character encoding. -/
theorem c5_every_char_encoded_cx :
    formatContent "{cloud_file}" "L" "/a b/c.mkv" true = some "%2Fa%20b%2Fc.mkv" ∧
    specEncodeAllChars "/a b/c.mkv" = "%2F%61%20%62%2F%63%2E%6D%6B%76" ∧
    formatContent "{cloud_file}" "L" "/a b/c.mkv" true ≠
      some (specEncodeAllChars "/a b/c.mkv") := by decide

/-- C5 (amended): for a `{cloud_file}`-only template, `uriEncode = true`
substitutes `urllib.parse.quote(cloudFile, safe='')`, which percent-encodes
every byte outside the unreserved set (letters, digits, `-`, `.`, `_`, `~`)
— in particular `/`, space and backslash — while unreserved characters stay
literal: every output character is `%` or unreserved.  With
`uriEncode = false`, backslashes are normalized to `/` and nothing is
percent-encoded. -/
theorem c5_quote_amended (f l c : String)
    (h1 : strIn "{local_file}" f = false) (h2 : strIn "{cloud_file}" f = true) :
    formatContent f l c true = some (pyReplace f "{cloud_file}" (pyQuote c)) ∧
    formatContent f l c false = some (pyReplace f "{cloud_file}" (pyReplace c "\\" "/")) ∧
    (∀ ch ∈ (pyQuote c).data, ch = '%' ∨ alwaysSafeByte ch.toNat = true) := by
  unfold formatContent
  rw [h1, h2]
  exact ⟨by simp, by simp, pyQuote_shape c⟩

/-- C5 (witness): the amended theorem applied at `{cloud_file}` templates
with concrete paths. -/
theorem c5_quote_amended_witness :
    formatContent "{cloud_file}" "L" "C:\\x y.mkv" false = some "C:/x y.mkv" ∧
    formatContent "{cloud_file}" "L" "/a b.mkv" true = some "%2Fa%20b.mkv" := by
  have h := c5_quote_amended "{cloud_file}" "L" "C:\\x y.mkv" (by decide) (by decide)
  have h' := c5_quote_amended "{cloud_file}" "L" "/a b.mkv" (by decide) (by decide)
  exact ⟨((h.2).1).trans (by decide), (h'.1).trans (by decide)⟩

/-- C6: materializing onto a target whose canonical `.strm` path already
exists is, with `overwrite = false`, a successful no-op that leaves the
filesystem (hence the existing content) untouched; with `overwrite = true`
and a successful write, the canonical path afterwards carries the new
content (path-replacement rules applied). -/
theorem c6_overwrite_policy (repl : List (String × String)) (io : IOOutcome) (path : String)
    (content : Option String) (fs : FS) (old : String)
    (h : fsGet fs (canonicalStrm path) = some old) :
    createStrmFile false repl io path content fs = (true, fs, false) ∧
    (∀ c, content = some c → io = IOOutcome.success →
      (createStrmFile true repl io path content fs).1 = true ∧
      fsGet ((createStrmFile true repl io path content fs).2).1 (canonicalStrm path) =
        some (applyReplacements repl c)) := by
  have hsome : (fsGet fs (canonicalStrm path)).isSome = true := by rw [h]; rfl
  constructor
  · simp only [createStrmFile]
    rw [hsome]
    simp
  · intro c hc hok
    subst hc
    subst hok
    simp only [createStrmFile]
    rw [hsome]
    simp [fsGet_fsSet_self]

/-- C6 (witness): the policy theorem applied to a concrete filesystem whose
`/strm/X.strm` already holds content `old`. -/
theorem c6_overwrite_policy_witness :
    createStrmFile false [] IOOutcome.success "/strm/X.mkv" (some "new")
      [("/strm/X.strm", "old")] = (true, [("/strm/X.strm", "old")], false) ∧
    fsGet ((createStrmFile true [] IOOutcome.success "/strm/X.mkv" (some "new")
      [("/strm/X.strm", "old")]).2).1 (canonicalStrm "/strm/X.mkv") = some "new" := by
  have h := c6_overwrite_policy [] IOOutcome.success "/strm/X.mkv" (some "new")
    [("/strm/X.strm", "old")] "old" (by decide)
  refine ⟨h.1, ?_⟩
  have h2 := (h.2 "new" rfl rfl).2
  exact h2.trans (by decide)

/-- C1: a completed full scan computes the new-files set as the union over
all mounts of the parsed tree paths having a non-empty suffix, minus the
index's current path set; and whenever that difference is empty, the scan
reports "no changes", writes no pointer file, and leaves state (index,
persisted file, filesystem, save counter) untouched. -/
theorem c1_scan_computes_diff (mounts : List MountConf) (conf : PluginConf)
    (trees : String → Option String) (ok : String → IOOutcome) (st : SyncState)
    (out : ScanOutcome) (h : scan mounts conf trees ok st = some out) :
    out.newFiles.toFinset = unionParsedFinset mounts trees \ st.index.toFinset ∧
    (unionParsedFinset mounts trees \ st.index.toFinset = ∅ →
      out.noChanges = true ∧ out.processed = [] ∧ out.strmWritten = [] ∧ out.st = st) := by
  obtain ⟨hnf, _, _, _, hnil⟩ := scan_main h
  have hfin : out.newFiles.toFinset = unionParsedFinset mounts trees \ st.index.toFinset := by
    rw [hnf, pySetDiff_toFinset, collectAll_toFinset]
  refine ⟨hfin, fun hdiff => ?_⟩
  have hempty : out.newFiles.toFinset = ∅ := by rw [hfin, hdiff]
  have hlist : out.newFiles = [] := by
    cases hli : out.newFiles with
    | nil => rfl
    | cons y ys =>
      rw [hli] at hempty
      simp at hempty
  exact hnil hlist

/-- C1 (witness): the diff theorem applied to a scan whose index already
contains the full snapshot: the empty diff triggers the "no changes"
report and an untouched state. -/
theorem c1_scan_computes_diff_witness :
    scan [wMount] wConf wTrees wOkX wStFull = some ⟨true, [], [], [], wStFull⟩ ∧
    (⟨true, [], [], [], wStFull⟩ : ScanOutcome).noChanges = true ∧
    (⟨true, [], [], [], wStFull⟩ : ScanOutcome).st = wStFull := by
  have h := c1_scan_computes_diff [wMount] wConf wTrees wOkX wStFull
    ⟨true, [], [], [], wStFull⟩ (by decide)
  have h2 := h.2 (by decide)
  exact ⟨by decide, h2.1, h2.2.2.2⟩

/-- C2 (counterexample): under the oracle that fails only `Y.mkv`, the scan
omits `Y.mkv` from the processed set but still marks it present in the
index (the index is assigned the whole snapshot), and the follow-up scan
reports "no changes" — so the failed file is not retried, contradicting the
claim. -/
theorem c2_failed_write_marked_present_cx :
    scan [wMount] wConf wTrees wOkX wSt0 = some c2Outcome ∧
    "/cloud/Y.mkv" ∉ c2Outcome.processed ∧
    "/cloud/Y.mkv" ∈ c2Outcome.st.index ∧
    (scan [wMount] wConf wTrees wOkX c2Outcome.st).map ScanOutcome.noChanges = some true := by
  refine ⟨by decide, by decide, by decide, by decide⟩

/-- C2 (amended): a file whose write fails is omitted from the processed
set, and a scan in which nothing was processed leaves the index, its
persisted form and the save counter unchanged, so its files are diffed
again next scan; but when at least one file succeeds, the scan replaces the
index by the full aggregate snapshot and persists it, so even the failed
files become present in the index and are not retried. -/
theorem c2_scan_failed_write_amended (mounts : List MountConf) (conf : PluginConf)
    (trees : String → Option String) (ok : String → IOOutcome) (st : SyncState)
    (out : ScanOutcome) (h : scan mounts conf trees ok st = some out) :
    (∀ x ∈ out.processed, x ∈ out.newFiles) ∧
    (out.processed = [] → out.st.index = st.index ∧ out.st.disk = st.disk ∧
      out.st.saveCount = st.saveCount) ∧
    (out.processed ≠ [] →
      out.st.index = collectAll mounts trees ∧
      out.st.disk = some (collectAll mounts trees) ∧
      ∀ x ∈ out.newFiles, x ∈ out.st.index) := by
  obtain ⟨hnf, hempty, hfull, hmem, _⟩ := scan_main h
  refine ⟨hmem, fun hp => ⟨(hempty hp).1, (hempty hp).2.1, (hempty hp).2.2.1⟩, fun hp => ?_⟩
  obtain ⟨hidx, hdisk, _⟩ := hfull hp
  refine ⟨hidx, hdisk, fun x hx => ?_⟩
  rw [hidx]
  exact mem_of_mem_pySetDiff (hnf ▸ hx)

/-- C2 (witness): the amended theorem applied at the `wOkX` scenario. -/
theorem c2_scan_failed_write_amended_witness :
    c2Outcome.st.index = collectAll [wMount] wTrees ∧
    "/cloud/X.mkv" ∈ c2Outcome.newFiles := by
  have h := c2_scan_failed_write_amended [wMount] wConf wTrees wOkX wSt0 c2Outcome (by decide)
  exact ⟨((h.2).2 (by decide)).1, h.1 "/cloud/X.mkv" (by decide)⟩

/-- C7 (counterexample): with a template containing no placeholder, the
first scan's write attempt creates the empty `/strm/X.strm` before
`f.write(None)` raises, so nothing is processed and the index stays empty;
the second scan over the unchanged snapshot finds the file existing, the
skip-on-exists check turns it into a success, and the PathIndex is
rewritten — the second scan does not leave the PathIndex unchanged. -/
theorem c7_second_scan_rewrites_index_cx :
    scan [c7Mount] wConf c7Trees wOkAll wSt0 = some c7Out1 ∧
    scan [c7Mount] wConf c7Trees wOkAll c7Out1.st = some c7Out2 ∧
    c7Out1.st.index = wSt0.index ∧
    c7Out2.st.index ≠ c7Out1.st.index := by
  refine ⟨by decide, by decide, by decide, by decide⟩

/-- C7 (amended): running a full scan twice against the same mounts, tree
snapshots and I/O outcomes writes no pointer file the second time and
leaves the PathIndex unchanged, provided the first scan successfully
processed at least one file or found nothing new; when the first scan found
new files but processed none of them, a failed write may already have
created its pointer file, and the second scan's skip-on-exists check then
flips such files to success and rewrites the PathIndex. -/
theorem c7_scan_idempotent_amended (mounts : List MountConf) (conf : PluginConf)
    (trees : String → Option String) (ok : String → IOOutcome) (st : SyncState)
    (o1 o2 : ScanOutcome) (h1 : scan mounts conf trees ok st = some o1)
    (h2 : scan mounts conf trees ok o1.st = some o2)
    (hp : o1.processed ≠ [] ∨ o1.newFiles = []) :
    o2.strmWritten = [] ∧ o2.st.index = o1.st.index := by
  obtain ⟨_, _, hfull, _, hnil⟩ := scan_main h1
  rcases hp with hp | hp
  · obtain ⟨hidx, _, _⟩ := hfull hp
    have hdiff : pySetDiff (collectAll mounts trees) o1.st.index = [] := by
      rw [hidx]
      exact pySetDiff_eq_nil _ _ (fun x hx => hx)
    rw [scan_diff_nil hdiff] at h2
    have heq : o2 = ⟨true, [], [], [], o1.st⟩ := (Option.some.inj h2).symm
    rw [heq]
    exact ⟨rfl, rfl⟩
  · obtain ⟨_, _, hsw, hst⟩ := hnil hp
    rw [hst] at h2
    have heq : o1 = o2 := Option.some.inj (h1.symm.trans h2)
    exact ⟨by rw [← heq]; exact hsw, by rw [← heq]⟩

/-- C7 (witness): the amended idempotence theorem applied to the concrete
first run `c2Outcome` (which processed `X.mkv`) and its concrete second
run. -/
theorem c7_scan_idempotent_amended_witness :
    scan [wMount] wConf wTrees wOkX c2Outcome.st = some ⟨true, [], [], [], c2Outcome.st⟩ ∧
    (⟨true, [], [], [], c2Outcome.st⟩ : ScanOutcome).strmWritten = [] ∧
    (⟨true, [], [], [], c2Outcome.st⟩ : ScanOutcome).st.index = c2Outcome.st.index := by
  have h := c7_scan_idempotent_amended [wMount] wConf wTrees wOkX wSt0 c2Outcome
    ⟨true, [], [], [], c2Outcome.st⟩ (by decide) (by decide) (Or.inl (by decide))
  exact ⟨by decide, h.1, h.2⟩

/-- C8 (counterexample): a path present in the index but absent from the
snapshot is dropped by a scan in which a write succeeded — the in-memory
path set loses a member, contradicting the claimed invariant. -/
theorem c8_index_entry_dropped_cx :
    scan [wMount] wConf wTrees wOkAll c8St0 = some c8Outcome ∧
    "/old/P.mkv" ∈ c8St0.index ∧
    "/old/P.mkv" ∉ c8Outcome.st.index := by
  refine ⟨by decide, by decide, by decide⟩

/-- C8 (amended): the incremental pass only ever adds to the index; a full
scan that processed nothing leaves every indexed path present; but a full
scan in which at least one file was processed replaces the index by the
aggregate snapshot, so an indexed path survives exactly when it is still in
that snapshot. -/
theorem c8_index_monotonicity_amended (conf : PluginConf) (m : MountConf)
    (ok : IOOutcome) (se : Bool) (p : String) (st : SyncState) (mounts : List MountConf)
    (trees : String → Option String) (okf : String → IOOutcome) (out : ScanOutcome) :
    (∀ x ∈ st.index, x ∈ (handleFile conf m ok se p st).1.index) ∧
    (scan mounts conf trees okf st = some out →
      ∀ x ∈ st.index,
        (x ∈ out.st.index ↔ out.processed = [] ∨ x ∈ collectAll mounts trees)) := by
  constructor
  · intro x hx
    rcases handleFile_cases conf m ok se p st with ⟨nfs, he⟩ | ⟨nfs, he⟩ | he <;> rw [he]
    · exact hx
    · exact mem_pySetAdd.mpr (Or.inl hx)
    · exact hx
  · intro h x hx
    obtain ⟨_, hempty, hfull, _, _⟩ := scan_main h
    by_cases hp : out.processed = []
    · obtain ⟨hidx0, _, _, _⟩ := hempty hp
      rw [hidx0]
      exact ⟨fun _ => Or.inl hp, fun _ => hx⟩
    · obtain ⟨hidx, _, _⟩ := hfull hp
      rw [hidx]
      constructor
      · exact fun hm => Or.inr hm
      · rintro (hc | hm)
        · exact absurd hc hp
        · exact hm

/-- C8 (witness): the amended theorem applied at the `c8St0` scenario and a
concrete incremental event. -/
theorem c8_index_monotonicity_amended_witness :
    ("/old/P.mkv" ∈ c8Outcome.st.index ↔
      c8Outcome.processed = [] ∨ "/old/P.mkv" ∈ collectAll [wMount] wTrees) ∧
    "/old/P.mkv" ∈ (handleFile wConf wMount IOOutcome.success true "/local/A.mkv" c8St0).1.index := by
  have h := c8_index_monotonicity_amended wConf wMount IOOutcome.success true "/local/A.mkv" c8St0
    [wMount] wTrees wOkAll c8Outcome
  exact ⟨h.2 (by decide) "/old/P.mkv" (by decide), h.1 "/old/P.mkv" (by decide)⟩

/-- C9 (counterexample): a successful incremental event flushes the index
to disk within the pass itself — the resulting state shows one executed
save with the persisted content equal to the new index — contradicting
"marks the index dirty without performing an immediate flush". -/
theorem c9_immediate_flush_cx :
    handleFile wConf wMount IOOutcome.success true "/local/X.mkv" wSt0 =
      (⟨["/cloud/X.mkv"], some ["/cloud/X.mkv"], [("/strm/X.strm", "/cloud/X.mkv")], 1⟩,
       true) := by decide

/-- C9 (amended): the incremental pass persists immediately: every
successful single-file event runs the JSON save right away (save counter
incremented by one, persisted content equal to the resulting in-memory
index); there is no dirty flag and no deferred periodic flush in this code;
an unsuccessful event performs no save and leaves the persisted file
untouched. -/
theorem c9_incremental_flush_amended (conf : PluginConf) (m : MountConf)
    (ok : IOOutcome) (se : Bool) (p : String) (st : SyncState) :
    ((handleFile conf m ok se p st).2 = true →
      (handleFile conf m ok se p st).1.saveCount = st.saveCount + 1 ∧
      (handleFile conf m ok se p st).1.disk =
        some (handleFile conf m ok se p st).1.index) ∧
    ((handleFile conf m ok se p st).2 = false →
      (handleFile conf m ok se p st).1.disk = st.disk ∧
      (handleFile conf m ok se p st).1.saveCount = st.saveCount) := by
  rcases handleFile_cases conf m ok se p st with ⟨nfs, he⟩ | ⟨nfs, he⟩ | he <;> rw [he]
  · exact ⟨fun hc => by simp at hc, fun _ => ⟨rfl, rfl⟩⟩
  · exact ⟨fun _ => ⟨rfl, rfl⟩, fun hc => by simp at hc⟩
  · exact ⟨fun _ => ⟨rfl, rfl⟩, fun hc => by simp at hc⟩

/-- C9 (witness): the amended theorem applied at a successful and at a
failing concrete incremental event. -/
theorem c9_incremental_flush_amended_witness :
    (handleFile wConf wMount IOOutcome.success true "/local/X.mkv" wSt0).1.saveCount = 1 ∧
    (handleFile wConf wMount IOOutcome.raiseBeforeOpen true "/local/X.mkv" wSt0).1.saveCount = 0 := by
  have h := c9_incremental_flush_amended wConf wMount IOOutcome.success true "/local/X.mkv" wSt0
  have h' := c9_incremental_flush_amended wConf wMount IOOutcome.raiseBeforeOpen true "/local/X.mkv" wSt0
  exact ⟨(h.1 (by decide)).1, (h'.2 (by decide)).2⟩

/-- C10: a completed full scan that discovered a non-empty set of new files
but successfully processed none of them leaves the in-memory index, the
persisted index file, and the save counter exactly as they were before the
scan. -/
theorem c10_no_success_preserves_state (mounts : List MountConf) (conf : PluginConf)
    (trees : String → Option String) (ok : String → IOOutcome) (st : SyncState)
    (out : ScanOutcome) (h : scan mounts conf trees ok st = some out)
    (_hne : out.newFiles ≠ []) (hfail : out.processed = []) :
    out.st.index = st.index ∧ out.st.disk = st.disk ∧ out.st.saveCount = st.saveCount := by
  obtain ⟨_, hempty, _, _, _⟩ := scan_main h
  obtain ⟨hidx0, hdisk0, hsave0, _⟩ := hempty hfail
  exact ⟨hidx0, hdisk0, hsave0⟩

/-- C10 (witness): the theorem applied at the all-writes-fail scenario. -/
theorem c10_no_success_preserves_state_witness :
    scan [wMount] wConf wTrees wOkNone wSt0 =
      some ⟨false, ["/cloud/X.mkv", "/cloud/Y.mkv"], [], [], wSt0⟩ ∧
    (⟨false, ["/cloud/X.mkv", "/cloud/Y.mkv"], [], [], wSt0⟩ : ScanOutcome).st.disk =
      wSt0.disk := by
  have h := c10_no_success_preserves_state [wMount] wConf wTrees wOkNone wSt0
    ⟨false, ["/cloud/X.mkv", "/cloud/Y.mkv"], [], [], wSt0⟩
    (by decide) (by decide) (by decide)
  exact ⟨by decide, (h.2).1⟩

end StrmVerify
